import Mathlib

/-!
# Window::Notifications — notification scheduling contract

A shallow embedding of `Telegram/SourceFiles/window/notifications_manager.h`:
the `ChangeType` enumeration, the ordering of the two map keys declared inside
`System` (`NotificationInHistoryKey`, `ReactionNotificationId`), the tuple
conversions of `Manager::ContextId` / `Manager::NotificationId`, and the
virtual-dispatch structure `Manager` / `NativeManager` / `DummyManager`.

The header only declares the member functions of `System`; their bodies are
not part of the header.  Where a property needs them, they are modelled from
the written specification and marked as such.
-/

namespace Window.Notifications

/-! ## Enumerations -/

/-- Enumeration `ManagerType` (header lines 45-49). -/
inductive ManagerType where
  | Dummy
  | Default
  | Native
  deriving DecidableEq, Repr

/-- Enumeration `ChangeType` (header lines 51-62), enumerators in declaration order. -/
inductive ChangeType where
  | SoundEnabled
  | FlashBounceEnabled
  | IncludeMuted
  | CountMessages
  | DesktopEnabled
  | ViewParams
  | MaxCount
  | Corner
  | DemoIsShown
  | DemoIsHidden
  deriving DecidableEq, Repr

/-- Underlying integer value of a `ChangeType` enumerator: no enumerator has an
explicit initialiser, so they are numbered from zero in declaration order. -/
def ChangeType.underlying : ChangeType → Nat
  | .SoundEnabled => 0
  | .FlashBounceEnabled => 1
  | .IncludeMuted => 2
  | .CountMessages => 3
  | .DesktopEnabled => 4
  | .ViewParams => 5
  | .MaxCount => 6
  | .Corner => 7
  | .DemoIsShown => 8
  | .DemoIsHidden => 9

/-- The ten enumerators of `ChangeType`, in declaration order. -/
def ChangeType.all : List ChangeType :=
  [.SoundEnabled, .FlashBounceEnabled, .IncludeMuted, .CountMessages,
   .DesktopEnabled, .ViewParams, .MaxCount, .Corner, .DemoIsShown, .DemoIsHidden]

/-! ## Identifier wrappers

`PeerId`, `PeerIdHelper` and `MsgId` are declared outside the header.  They are
taken as plain wrappers: `PeerId` of its 64-bit unsigned `value`, `MsgId` of
its 64-bit signed `bare` value.  No arithmetic is performed on them here. -/

/-- Wrapper `PeerId` around its unsigned `value`. -/
structure PeerId where
  value : Nat
  deriving DecidableEq, Repr

/-- Wrapper `PeerIdHelper`: the explicit conversion helper from a bare value. -/
structure PeerIdHelper where
  value : Nat
  deriving DecidableEq, Repr

/-- Conversion `PeerId(PeerIdHelper)`. -/
def PeerId.ofHelper (h : PeerIdHelper) : PeerId := ⟨h.value⟩

/-- Wrapper `MsgId` around its signed `bare` value. -/
structure MsgId where
  bare : Int
  deriving DecidableEq, Repr

/-- Implicit conversion `MsgId(int64)`. -/
def MsgId.ofBare (b : Int) : MsgId := ⟨b⟩

/-! ## Manager::ContextId and Manager::NotificationId (header lines 212-258) -/

namespace Manager

/-- Structure `Manager::ContextId`. -/
structure ContextId where
  sessionId : Nat
  peerId : PeerId
  topicRootId : MsgId
  deriving DecidableEq, Repr

/-- Method `ContextId::toTuple`: `make_tuple(sessionId, peerId.value, topicRootId.bare)`. -/
def ContextId.toTuple (c : ContextId) : Nat × Nat × Int :=
  (c.sessionId, c.peerId.value, c.topicRootId.bare)

/-- Static method `ContextId::FromTuple`:
`ContextId{ get<0>(t), PeerIdHelper(get<1>(t)), get<2>(t) }`. -/
def ContextId.FromTuple (t : Nat × Nat × Int) : ContextId :=
  { sessionId := t.1
    peerId := PeerId.ofHelper (PeerIdHelper.mk t.2.1)
    topicRootId := MsgId.ofBare t.2.2 }

/-- Structure `Manager::NotificationId`. -/
structure NotificationId where
  contextId : ContextId
  msgId : MsgId
  deriving DecidableEq, Repr

/-- Method `NotificationId::toTuple`: `make_tuple(contextId.toTuple(), msgId.bare)`. -/
def NotificationId.toTuple (n : NotificationId) : (Nat × Nat × Int) × Int :=
  (n.contextId.toTuple, n.msgId.bare)

/-- Static method `NotificationId::FromTuple`:
`NotificationId{ ContextId::FromTuple(get<0>(t)), get<1>(t) }`. -/
def NotificationId.FromTuple (t : (Nat × Nat × Int) × Int) : NotificationId :=
  { contextId := ContextId.FromTuple t.1
    msgId := MsgId.ofBare t.2 }

/-- Structure `Manager::DisplayOptions` (header lines 299-304). -/
structure DisplayOptions where
  hideNameAndPhoto : Bool := false
  hideMessageText : Bool := false
  hideMarkAsRead : Bool := false
  hideReplyButton : Bool := false
  deriving DecidableEq, Repr

end Manager

/-! ## Presentation backends: Manager, NativeManager, DummyManager

Objects referred to through pointers (`HistoryItem*`, `Data::ForumTopic*`,
`History*`, `Main::Session*`, `PeerData*`) are represented by their identity, a
natural number.  A backend acts on a world `σ`: everything the backend can
observe or change (its own handles and the platform notification centre).  A
`void` member function is a world transformer `σ → σ`; a `const` member
function returning `bool` is a reader `σ → Bool`. -/

abbrev HistoryItemPtr := Nat
abbrev ForumTopicPtr := Nat
abbrev HistoryPtr := Nat
abbrev SessionPtr := Nat
abbrev PeerPtr := Nat

/-- Arguments of `NativeManager::doShowNativeNotification` passed by value or
by const reference (header lines 392-400). -/
structure NativeNotification where
  peer : PeerPtr
  topicRootId : MsgId
  msgId : MsgId
  title : String
  subtitle : String
  msg : String
  options : Manager.DisplayOptions
  deriving DecidableEq, Repr

/-- The virtual member functions of `Manager` that the header gives a body or
declares pure (header lines 323, 342-352).  `doShowNotification` is left out:
its only override in the header (`NativeManager`) has its body elsewhere. -/
structure ManagerImpl (σ : Type) where
  type : ManagerType
  doUpdateAll : σ → σ
  doClearAll : σ → σ
  doClearAllFast : σ → σ
  doClearFromItem : HistoryItemPtr → σ → σ
  doClearFromTopic : ForumTopicPtr → σ → σ
  doClearFromHistory : HistoryPtr → σ → σ
  doClearFromSession : SessionPtr → σ → σ
  doSkipAudio : σ → Bool
  doSkipToast : σ → Bool
  doSkipFlashBounce : σ → Bool

namespace ManagerImpl

variable {σ : Type}

/-- Method `Manager::updateAll` (header lines 272-274). -/
def updateAll (m : ManagerImpl σ) (w : σ) : σ := m.doUpdateAll w

/-- Method `Manager::clearAll` (header lines 275-277). -/
def clearAll (m : ManagerImpl σ) (w : σ) : σ := m.doClearAll w

/-- Method `Manager::clearAllFast` (header lines 278-280). -/
def clearAllFast (m : ManagerImpl σ) (w : σ) : σ := m.doClearAllFast w

/-- Method `Manager::clearFromItem` (header lines 281-283). -/
def clearFromItem (m : ManagerImpl σ) (item : HistoryItemPtr) (w : σ) : σ :=
  m.doClearFromItem item w

/-- Method `Manager::clearFromTopic` (header lines 284-286). -/
def clearFromTopic (m : ManagerImpl σ) (topic : ForumTopicPtr) (w : σ) : σ :=
  m.doClearFromTopic topic w

/-- Method `Manager::clearFromHistory` (header lines 287-289). -/
def clearFromHistory (m : ManagerImpl σ) (history : HistoryPtr) (w : σ) : σ :=
  m.doClearFromHistory history w

/-- Method `Manager::clearFromSession` (header lines 290-292). -/
def clearFromSession (m : ManagerImpl σ) (session : SessionPtr) (w : σ) : σ :=
  m.doClearFromSession session w

/-- Method `Manager::skipAudio` (header lines 325-327). -/
def skipAudio (m : ManagerImpl σ) (w : σ) : Bool := m.doSkipAudio w

/-- Method `Manager::skipToast` (header lines 328-330). -/
def skipToast (m : ManagerImpl σ) (w : σ) : Bool := m.doSkipToast w

/-- Method `Manager::skipFlashBounce` (header lines 331-333). -/
def skipFlashBounce (m : ManagerImpl σ) (w : σ) : Bool := m.doSkipFlashBounce w

end ManagerImpl

/-- What a class derived from `NativeManager` still has to provide when it
overrides neither `doUpdateAll` nor `doClearAll`: the members that remain pure
virtual after `NativeManager` (header lines 373-402).  The userpic view is
passed to the display hook by non-const reference, so the hook returns its new
value together with the new world. -/
structure NativeHooks (σ : Type) (View : Type) where
  type : ManagerType
  doShowNativeNotification : NativeNotification → View → σ → σ × View
  doClearAllFast : σ → σ
  doClearFromItem : HistoryItemPtr → σ → σ
  doClearFromTopic : ForumTopicPtr → σ → σ
  doClearFromHistory : HistoryPtr → σ → σ
  doClearFromSession : SessionPtr → σ → σ
  doSkipAudio : σ → Bool
  doSkipToast : σ → Bool
  doSkipFlashBounce : σ → Bool

/-- Class `NativeManager`: `doUpdateAll` and `doClearAll` both forward to the
virtual `doClearAllFast` (header lines 382-387); the rest is dispatched to the
derived class. -/
def NativeManager {σ View : Type} (h : NativeHooks σ View) : ManagerImpl σ :=
  { type := h.type
    doUpdateAll := fun w => h.doClearAllFast w
    doClearAll := fun w => h.doClearAllFast w
    doClearAllFast := h.doClearAllFast
    doClearFromItem := h.doClearFromItem
    doClearFromTopic := h.doClearFromTopic
    doClearFromHistory := h.doClearFromHistory
    doClearFromSession := h.doClearFromSession
    doSkipAudio := h.doSkipAudio
    doSkipToast := h.doSkipToast
    doSkipFlashBounce := h.doSkipFlashBounce }

/-- Class `DummyManager` (header lines 404-443): every overridden hook has an
empty body, the three `doSkip*` readers return `false`. -/
def DummyHooks (σ View : Type) : NativeHooks σ View :=
  { type := ManagerType.Dummy
    doShowNativeNotification := fun _ view w => (w, view)
    doClearAllFast := fun w => w
    doClearFromItem := fun _ w => w
    doClearFromTopic := fun _ w => w
    doClearFromHistory := fun _ w => w
    doClearFromSession := fun _ w => w
    doSkipAudio := fun _ => false
    doSkipToast := fun _ => false
    doSkipFlashBounce := fun _ => false }

/-- A `DummyManager` seen through the `Manager` interface: it derives from
`NativeManager` and keeps its `doUpdateAll` / `doClearAll`. -/
def DummyManager (σ View : Type) : ManagerImpl σ :=
  NativeManager (DummyHooks σ View)

/-! ## Keys of the maps owned by System -/

/-- Modelled from the spec: the enumeration `Data::ItemNotificationType` is only
forward-declared in the header (line 22); the specification names the kinds
message / reaction / scheduled-reveal. -/
inductive ItemNotificationType where
  | Message
  | Reaction
  | ScheduledReveal
  deriving DecidableEq, Repr

/-- Underlying integer value of an `ItemNotificationType` enumerator. -/
def ItemNotificationType.underlying : ItemNotificationType → Nat
  | .Message => 0
  | .Reaction => 1
  | .ScheduledReveal => 2

/-- Three-way comparison `a <=> b` of two signed integers. -/
def threeWayInt (a b : Int) : Ordering :=
  if a < b then Ordering.lt else if b < a then Ordering.gt else Ordering.eq

/-- Three-way comparison `a <=> b` of two unsigned integers. -/
def threeWayNat (a b : Nat) : Ordering :=
  if a < b then Ordering.lt else if b < a then Ordering.gt else Ordering.eq

/-- Structure `System::NotificationInHistoryKey` (header lines 122-134). -/
structure NotificationInHistoryKey where
  messageId : MsgId
  type : ItemNotificationType
  deriving DecidableEq, Repr

namespace NotificationInHistoryKey

/-- The defaulted `operator<=>` (header lines 131-133): member-wise three-way
comparison in declaration order, `messageId` first and `type` second; the
first member that does not compare equal decides. -/
def compare (a b : NotificationInHistoryKey) : Ordering :=
  match threeWayInt a.messageId.bare b.messageId.bare with
  | Ordering.eq => threeWayNat a.type.underlying b.type.underlying
  | o => o

/-- Relational `a < b`, rewritten by the language as `(a <=> b) < 0`. -/
def lt (a b : NotificationInHistoryKey) : Bool :=
  match compare a b with
  | Ordering.lt => true
  | _ => false

end NotificationInHistoryKey

/-- Comparison `std::pair(a1, a2) < std::pair(b1, b2)` written with the
component `<` only: `a1 < b1 || (!(b1 < a1) && a2 < b2)`. -/
def pairLt {α β : Type} (ltA : α → α → Bool) (ltB : β → β → Bool)
    (a b : α × β) : Bool :=
  ltA a.1 b.1 || (!(ltA b.1 a.1) && ltB a.2 b.2)

/-- Structure `System::ReactionNotificationId` (header lines 139-149).  The type
`FullMsgId` of `itemId` is declared outside the header; it is the parameter
`F`, which carries a linear order standing for its `operator<`. -/
structure ReactionNotificationId (F : Type) where
  itemId : F
  sessionId : Nat

/-- The friend `operator<` of `ReactionNotificationId` (header lines 143-148):
`std::pair(a.itemId, a.sessionId) < std::pair(b.itemId, b.sessionId)`. -/
def ReactionNotificationId.lt {F : Type} [LinearOrder F]
    (a b : ReactionNotificationId F) : Bool :=
  pairLt (fun x y => decide (x < y)) (fun x y => decide (x < y))
    (a.itemId, a.sessionId) (b.itemId, b.sessionId)

/-! ## Ordered flat maps

`base::flat_map<K, V>` is declared outside the header.  It is a vector of
key/value pairs kept in ascending key order with one entry per key; lookups
locate the lower bound of the key (the first entry whose key is not less than
it) and compare once more.  The functions below work on the underlying list and
take the key comparison `lt` explicitly. -/

namespace FlatMap

variable {K V : Type}

/-- The keys of a map, in storage order. -/
def keys (m : List (K × V)) : List K := m.map Prod.fst

/-- Modelled from the spec: `base::flat_map` is declared outside the header; the
specification calls the maps ordered mappings that are looked up by key.
Lookup `find(k)`: the value at the lower bound of `k` when that entry is not
greater than `k`. -/
def find (lt : K → K → Bool) : List (K × V) → K → Option V
  | [], _ => none
  | (k1, v1) :: rest, k =>
    if lt k1 k then find lt rest k
    else if lt k k1 then none
    else some v1

/-- Modelled from the spec: `base::flat_map` is declared outside the header; the
specification has an entry created only if not already present, an existing
entry being left as it is.  Insertion `emplace(k, v)`: a new entry is inserted
at the lower bound of `k` unless an entry with an equivalent key is already
there, in which case the map is left as it is. -/
def emplace (lt : K → K → Bool) : List (K × V) → K → V → List (K × V)
  | [], k, v => [(k, v)]
  | (k1, v1) :: rest, k, v =>
    if lt k1 k then (k1, v1) :: emplace lt rest k v
    else if lt k k1 then (k, v) :: (k1, v1) :: rest
    else (k1, v1) :: rest

/-- Modelled from the spec: `base::flat_map` is declared outside the header.
Assignment `m[k] = v`: the entry for `k` is created if absent, and its value is
overwritten. -/
def assign (lt : K → K → Bool) : List (K × V) → K → V → List (K × V)
  | [], k, v => [(k, v)]
  | (k1, v1) :: rest, k, v =>
    if lt k1 k then (k1, v1) :: assign lt rest k v
    else if lt k k1 then (k, v) :: (k1, v1) :: rest
    else (k1, v) :: rest

/-- Modelled from the spec: `base::flat_map` is declared outside the header; the
specification has entries removed once shown or cleared.  Removal of every
entry whose key satisfies `p`. -/
def removeIf (p : K → Bool) (m : List (K × V)) : List (K × V) :=
  m.filter (fun e => !(p e.1))

/-- Ascending key order: every entry's key is less than the key of every
later entry. -/
def Sorted (lt : K → K → Bool) (m : List (K × V)) : Prop :=
  (keys m).Pairwise (fun a b => lt a b = true)

/-- A comparison is a strict total order: irreflexive, transitive, and two
keys neither of which is less than the other are the same key. -/
structure StrictTotal (lt : K → K → Bool) : Prop where
  irrefl : ∀ a, lt a a = false
  trans : ∀ a b c, lt a b = true → lt b c = true → lt a c = true
  total : ∀ a b, lt a b = false → lt b a = false → a = b

/-- One mutation of a map through its interface: an insertion, an assignment,
or the removal of the entries whose key satisfies a predicate (erasing one key
is the case of the predicate that holds of that key only). -/
inductive Edit (K V : Type) where
  | emplace (k : K) (v : V)
  | assign (k : K) (v : V)
  | removeIf (p : K → Bool)

/-- Effect of one mutation. -/
def applyEdit (lt : K → K → Bool) (m : List (K × V)) : Edit K V → List (K × V)
  | Edit.emplace k v => emplace lt m k v
  | Edit.assign k v => assign lt m k v
  | Edit.removeIf p => removeIf p m

/-- The map obtained from the empty map by a sequence of mutations, first
mutation first. -/
def build (lt : K → K → Bool) (edits : List (Edit K V)) : List (K × V) :=
  edits.foldl (applyEdit lt) []

end FlatMap

/-! ## The scheduler state -/

abbrev ThreadPtr := Nat

/-- Comparison of two `not_null<Data::Thread*>` keys: by address. -/
def threadLt (a b : ThreadPtr) : Bool := decide (a < b)

/-- Modelled from the spec: `struct Waiter` is only forward-declared in the
header (line 111).  The specification describes it as the per-thread record of
the earliest-pending and latest-pending notification timestamps plus a flag
telling whether a wait-for-grouping window is active. -/
structure Waiter where
  earliest : Int
  latest : Int
  grouping : Bool
  deriving DecidableEq, Repr

/-- The data members of `System` that hold scheduling state (header lines
172-187): the per-thread WhenMaps, the two Waiter registries and the
sent-reactions ledger.  Timers, alert slots, sound tracks and the backend
pointer are not represented. -/
structure System (F : Type) where
  whenMaps : List (ThreadPtr × List (NotificationInHistoryKey × Int))
  waiters : List (ThreadPtr × Waiter)
  settingWaiters : List (ThreadPtr × Waiter)
  sentReactionNotifications : List (ReactionNotificationId F × Int)

/-- Modelled from the spec: the conversation-store collaborator, which resolves
the opaque handles (section 6): the identity of an item, the thread and the
session it belongs to, and the topic, history and session of a thread.  The
types behind `HistoryItem*` and `Data::Thread*` are declared outside the
header. -/
structure Store (F : Type) where
  fullId : HistoryItemPtr → F
  msgId : HistoryItemPtr → MsgId
  itemThread : HistoryItemPtr → ThreadPtr
  itemSessionId : HistoryItemPtr → Nat
  threadTopic : ThreadPtr → Option ForumTopicPtr
  threadHistory : ThreadPtr → HistoryPtr
  threadSession : ThreadPtr → SessionPtr

namespace System

variable {F : Type} [LinearOrder F]

/-- Modelled from the spec: `System::clearForThreadIf` (declared at header line
151, body absent).  Section 4.3: the shared primitive that goes over all
tracked threads and evicts the Waiter and WhenMap state of those matching the
predicate. -/
def clearForThreadIf (s : System F) (predicate : ThreadPtr → Bool) : System F :=
  { s with whenMaps := FlatMap.removeIf predicate s.whenMaps,
           waiters := FlatMap.removeIf predicate s.waiters,
           settingWaiters := FlatMap.removeIf predicate s.settingWaiters }

/-- Modelled from the spec: `System::clearFromTopic` (header line 91, body absent). -/
def clearFromTopic (st : Store F) (s : System F) (topic : ForumTopicPtr) : System F :=
  clearForThreadIf s (fun thread => st.threadTopic thread == some topic)

/-- Modelled from the spec: `System::clearFromHistory` (header line 92, body absent). -/
def clearFromHistory (st : Store F) (s : System F) (history : HistoryPtr) : System F :=
  clearForThreadIf s (fun thread => st.threadHistory thread == history)

/-- Modelled from the spec: `System::clearFromSession` (header line 95, body absent). -/
def clearFromSession (st : Store F) (s : System F) (session : SessionPtr) : System F :=
  clearForThreadIf s (fun thread => st.threadSession thread == session)

/-- Modelled from the spec: `System::clearAllFast` (header line 98, body absent).
Section 4.3: it flushes all state unconditionally; section 8: it leaves zero
residual Waiter, WhenMap and ledger entries. -/
def clearAllFast (_s : System F) : System F :=
  { whenMaps := [], waiters := [], settingWaiters := [],
    sentReactionNotifications := [] }

/-- Modelled from the spec: `System::clearAll` (header line 97, body absent).
Section 4.3: like `clearAllFast` it flushes all state unconditionally; the two
differ in the backend callbacks, which are not part of this state. -/
def clearAll (_s : System F) : System F :=
  { whenMaps := [], waiters := [], settingWaiters := [],
    sentReactionNotifications := [] }

/-- Modelled from the spec: `System::updateAll` (header line 99, body absent).
Section 4.3: the visible notifications are rendered again, the scheduling
state is not altered. -/
def updateAll (s : System F) : System F := s

/-- Removal of the WhenMap entries of one thread whose key satisfies `p`.  When
the WhenMap of the thread drains, the WhenMap and the Waiter of the thread are
removed (section 3: a Waiter is removed when the thread's queue drains). -/
def dropEntries (s : System F) (thread : ThreadPtr)
    (p : NotificationInHistoryKey → Bool) : System F :=
  match FlatMap.find threadLt s.whenMaps thread with
  | none => s
  | some entries =>
    let rest := FlatMap.removeIf p entries
    if rest.isEmpty then clearForThreadIf s (fun t => t == thread)
    else { s with whenMaps := FlatMap.assign threadLt s.whenMaps thread rest }

/-- Modelled from the spec: `System::clearFromItem` (header line 96, body
absent).  Section 4.3: the pending state in the scope of the item is removed,
that is the WhenMap entries of its message id in its thread. -/
def clearFromItem (st : Store F) (s : System F) (item : HistoryItemPtr) : System F :=
  dropEntries s (st.itemThread item) (fun key => key.messageId == st.msgId item)

end System

end Window.Notifications

/-! # Theorems -/

namespace Window.Notifications

/-! ## The settings change kinds -/

/-- C7: `ChangeType` has exactly ten pairwise-distinct values and no others:
SoundEnabled, FlashBounceEnabled, IncludeMuted, CountMessages, DesktopEnabled,
ViewParams, MaxCount, Corner, DemoIsShown, DemoIsHidden.  The list of the ten
named enumerators has length ten and no repetition, every value of the type is
one of them, and the underlying values are the distinct numbers 0 to 9. -/
theorem changeType_exactly_ten_values :
    ChangeType.all =
        [ChangeType.SoundEnabled, ChangeType.FlashBounceEnabled,
         ChangeType.IncludeMuted, ChangeType.CountMessages,
         ChangeType.DesktopEnabled, ChangeType.ViewParams, ChangeType.MaxCount,
         ChangeType.Corner, ChangeType.DemoIsShown, ChangeType.DemoIsHidden]
      ∧ ChangeType.all.length = 10
      ∧ ChangeType.all.Nodup
      ∧ (∀ c : ChangeType, c ∈ ChangeType.all)
      ∧ ChangeType.all.map ChangeType.underlying = List.range 10
      ∧ Function.Injective ChangeType.underlying := by
  refine ⟨rfl, rfl, by decide, ?_, rfl, ?_⟩
  · intro c
    cases c <;> decide
  · intro a b h
    cases a <;> cases b <;> first | rfl | exact absurd h (by decide)

/-! ## Tuple conversions -/

/-- C10: tuple conversion round-trips.  `ContextId::FromTuple(c.toTuple())` is
`c` for every ContextId, `NotificationId::FromTuple(n.toTuple())` is `n` for
every NotificationId, and therefore both `toTuple` functions are injective. -/
theorem fromTuple_toTuple_roundtrip :
    (∀ c : Manager.ContextId, Manager.ContextId.FromTuple c.toTuple = c)
      ∧ (∀ n : Manager.NotificationId, Manager.NotificationId.FromTuple n.toTuple = n)
      ∧ Function.Injective Manager.ContextId.toTuple
      ∧ Function.Injective Manager.NotificationId.toTuple := by
  have hc : ∀ c : Manager.ContextId, Manager.ContextId.FromTuple c.toTuple = c := by
    intro c
    rfl
  have hn : ∀ n : Manager.NotificationId, Manager.NotificationId.FromTuple n.toTuple = n := by
    intro n
    rfl
  refine ⟨hc, hn, ?_, ?_⟩
  · intro a b h
    rw [← hc a, ← hc b, h]
  · intro a b h
    rw [← hn a, ← hn b, h]

/-! ## Presentation backends -/

/-- C5: every operation of the dummy backend is a no-op.  For every world `w`
and every argument, `updateAll`, `clearAll`, `clearAllFast`, `clearFromItem`,
`clearFromTopic`, `clearFromHistory`, `clearFromSession` and the native display
hook `doShowNativeNotification` return the world (and the userpic view) they
were given. -/
theorem dummyManager_operations_are_noops (σ View : Type) (w : σ) (view : View)
    (item : HistoryItemPtr) (topic : ForumTopicPtr) (history : HistoryPtr)
    (session : SessionPtr) (fields : NativeNotification) :
    (DummyManager σ View).updateAll w = w
      ∧ (DummyManager σ View).clearAll w = w
      ∧ (DummyManager σ View).clearAllFast w = w
      ∧ (DummyManager σ View).clearFromItem item w = w
      ∧ (DummyManager σ View).clearFromTopic topic w = w
      ∧ (DummyManager σ View).clearFromHistory history w = w
      ∧ (DummyManager σ View).clearFromSession session w = w
      ∧ (DummyHooks σ View).doShowNativeNotification fields view w = (w, view) :=
  ⟨rfl, rfl, rfl, rfl, rfl, rfl, rfl, rfl⟩

/-- C8: on the dummy backend the three capability flags are false in every
world: `skipAudio()`, `skipToast()` and `skipFlashBounce()` return false, and
each public getter of any backend returns exactly its `doSkip*` hook. -/
theorem dummyManager_skip_flags_false (σ View : Type) (w : σ) :
    (DummyManager σ View).skipAudio w = false
      ∧ (DummyManager σ View).skipToast w = false
      ∧ (DummyManager σ View).skipFlashBounce w = false
      ∧ (∀ m : ManagerImpl σ, m.skipAudio w = m.doSkipAudio w
          ∧ m.skipToast w = m.doSkipToast w
          ∧ m.skipFlashBounce w = m.doSkipFlashBounce w) :=
  ⟨rfl, rfl, rfl, fun _ => ⟨rfl, rfl, rfl⟩⟩

/-- C9: on a backend derived from `NativeManager` that overrides neither
`doUpdateAll` nor `doClearAll`, `updateAll()` and `clearAll()` have the same
effect as `clearAllFast()` on every world, whatever the derived class does in
`doClearAllFast`. -/
theorem nativeManager_updateAll_clearAll_eq_clearAllFast (σ View : Type)
    (h : NativeHooks σ View) (w : σ) :
    (NativeManager h).updateAll w = (NativeManager h).clearAllFast w
      ∧ (NativeManager h).clearAll w = (NativeManager h).clearAllFast w
      ∧ (NativeManager h).clearAllFast w = h.doClearAllFast w :=
  ⟨rfl, rfl, rfl⟩

/-! ## Key orderings -/

theorem ReactionNotificationId.reactionId_lt_iff {F : Type} [LinearOrder F]
    (a b : ReactionNotificationId F) :
    a.lt b = true ↔
      a.itemId < b.itemId ∨ (a.itemId = b.itemId ∧ a.sessionId < b.sessionId) := by
  simp only [ReactionNotificationId.lt, pairLt, Bool.or_eq_true, Bool.and_eq_true,
    Bool.not_eq_true', decide_eq_true_eq, decide_eq_false_iff_not]
  constructor
  · rintro (h | ⟨h1, h2⟩)
    · exact Or.inl h
    · rcases lt_or_eq_of_le (not_lt.mp h1) with h3 | h3
      · exact Or.inl h3
      · exact Or.inr ⟨h3, h2⟩
  · rintro (h | ⟨h1, h2⟩)
    · exact Or.inl h
    · exact Or.inr ⟨by rw [h1]; exact lt_irrefl _, h2⟩

theorem ReactionNotificationId.reactionId_lt_eq_false_iff {F : Type} [LinearOrder F]
    (a b : ReactionNotificationId F) :
    a.lt b = false ↔
      ¬ (a.itemId < b.itemId ∨ (a.itemId = b.itemId ∧ a.sessionId < b.sessionId)) := by
  rw [← ReactionNotificationId.reactionId_lt_iff, Bool.not_eq_true]

theorem ReactionNotificationId.reactionId_strictTotal {F : Type} [LinearOrder F] :
    FlatMap.StrictTotal (ReactionNotificationId.lt : ReactionNotificationId F → _ → Bool) where
  irrefl a := by
    rw [ReactionNotificationId.reactionId_lt_eq_false_iff]
    rintro (h | ⟨_, h⟩)
    · exact lt_irrefl _ h
    · exact lt_irrefl _ h
  trans a b c hab hbc := by
    rw [ReactionNotificationId.reactionId_lt_iff] at hab hbc ⊢
    rcases hab with h1 | ⟨h1, h2⟩
    · rcases hbc with h3 | ⟨h3, _⟩
      · exact Or.inl (lt_trans h1 h3)
      · exact Or.inl (h3 ▸ h1)
    · rcases hbc with h3 | ⟨h3, h4⟩
      · exact Or.inl (h1 ▸ h3)
      · exact Or.inr ⟨h1.trans h3, lt_trans h2 h4⟩
  total a b hab hba := by
    rw [ReactionNotificationId.reactionId_lt_eq_false_iff] at hab hba
    push_neg at hab hba
    obtain ⟨ai, as⟩ := a
    obtain ⟨bi, bs⟩ := b
    simp only at hab hba
    have hi : ai = bi := le_antisymm hba.1 hab.1
    have hs : as = bs := le_antisymm (hba.2 hi.symm) (hab.2 hi)
    rw [hi, hs]

theorem ItemNotificationType.underlying_injective :
    Function.Injective ItemNotificationType.underlying := by
  intro a b h
  cases a <;> cases b <;> first | rfl | exact absurd h (by decide)

theorem NotificationInHistoryKey.compare_eq_lt_iff (a b : NotificationInHistoryKey) :
    a.compare b = Ordering.lt ↔
      a.messageId.bare < b.messageId.bare
        ∨ (a.messageId.bare = b.messageId.bare
            ∧ a.type.underlying < b.type.underlying) := by
  unfold NotificationInHistoryKey.compare threeWayInt threeWayNat
  rcases lt_trichotomy a.messageId.bare b.messageId.bare with h | h | h
  · simp [h]
  · simp only [h, lt_self_iff_false, if_false, false_or, true_and]
    split_ifs <;> simp_all
  · have h1 : ¬ a.messageId.bare < b.messageId.bare := not_lt.mpr h.le
    simp [h1, h, h.ne']

theorem NotificationInHistoryKey.compare_eq_gt_iff (a b : NotificationInHistoryKey) :
    a.compare b = Ordering.gt ↔
      b.messageId.bare < a.messageId.bare
        ∨ (a.messageId.bare = b.messageId.bare
            ∧ b.type.underlying < a.type.underlying) := by
  unfold NotificationInHistoryKey.compare threeWayInt threeWayNat
  rcases lt_trichotomy a.messageId.bare b.messageId.bare with h | h | h
  · have h1 : ¬ b.messageId.bare < a.messageId.bare := not_lt.mpr h.le
    simp [h, h1, h.ne]
  · simp only [h, lt_self_iff_false, if_false, false_or, true_and]
    split_ifs with h2 h3
    · simp only [reduceCtorEq, false_iff, not_lt]
      exact h2.le
    · simp [h3]
    · simp [h3]
  · have h1 : ¬ a.messageId.bare < b.messageId.bare := not_lt.mpr h.le
    simp [h1, h]

theorem NotificationInHistoryKey.compare_eq_eq_iff (a b : NotificationInHistoryKey) :
    a.compare b = Ordering.eq ↔ a.messageId = b.messageId ∧ a.type = b.type := by
  have hm : a.messageId = b.messageId ↔ a.messageId.bare = b.messageId.bare := by
    constructor
    · intro h; rw [h]
    · intro h
      cases hx : a.messageId
      cases hy : b.messageId
      rw [hx, hy] at h
      simpa using h
  have ht : a.type = b.type ↔ a.type.underlying = b.type.underlying :=
    ⟨fun h => by rw [h], fun h => ItemNotificationType.underlying_injective h⟩
  rw [hm, ht]
  unfold NotificationInHistoryKey.compare threeWayInt threeWayNat
  rcases lt_trichotomy a.messageId.bare b.messageId.bare with h | h | h
  · simp [h, h.ne]
  · simp only [h, lt_self_iff_false, if_false, true_and]
    rcases lt_trichotomy a.type.underlying b.type.underlying with h2 | h2 | h2
    · simp [h2, h2.ne]
    · simp [h2]
    · have h3 : ¬ a.type.underlying < b.type.underlying := not_lt.mpr h2.le
      simp [h2, h3, h2.ne']
  · have h1 : ¬ a.messageId.bare < b.messageId.bare := not_lt.mpr h.le
    simp [h1, h, h.ne']

theorem NotificationInHistoryKey.historyKey_lt_iff (a b : NotificationInHistoryKey) :
    a.lt b = true ↔
      a.messageId.bare < b.messageId.bare
        ∨ (a.messageId.bare = b.messageId.bare
            ∧ a.type.underlying < b.type.underlying) := by
  rw [← NotificationInHistoryKey.compare_eq_lt_iff]
  unfold NotificationInHistoryKey.lt
  cases a.compare b <;> simp

theorem NotificationInHistoryKey.historyKey_strictTotal :
    FlatMap.StrictTotal NotificationInHistoryKey.lt where
  irrefl a := by
    rw [← Bool.not_eq_true, NotificationInHistoryKey.historyKey_lt_iff]
    rintro (h | ⟨_, h⟩)
    · exact lt_irrefl _ h
    · exact lt_irrefl _ h
  trans a b c hab hbc := by
    rw [NotificationInHistoryKey.historyKey_lt_iff] at hab hbc ⊢
    rcases hab with h1 | ⟨h1, h2⟩
    · rcases hbc with h3 | ⟨h3, _⟩
      · exact Or.inl (lt_trans h1 h3)
      · exact Or.inl (h3 ▸ h1)
    · rcases hbc with h3 | ⟨h3, h4⟩
      · exact Or.inl (h1 ▸ h3)
      · exact Or.inr ⟨h1.trans h3, lt_trans h2 h4⟩
  total a b hab hba := by
    rw [← Bool.not_eq_true, NotificationInHistoryKey.historyKey_lt_iff] at hab hba
    push_neg at hab hba
    have h1 : a.messageId.bare = b.messageId.bare := le_antisymm hba.1 hab.1
    have h2 : a.type.underlying = b.type.underlying :=
      le_antisymm (hba.2 h1.symm) (hab.2 h1)
    obtain ⟨⟨am⟩, at1⟩ := a
    obtain ⟨⟨bm⟩, bt⟩ := b
    simp only at h1 h2
    rw [h1, ItemNotificationType.underlying_injective h2]

/-- C4: the sent-reactions ledger is keyed by exactly the (item identity,
session identity) pair.  With a strict total order on `FullMsgId`, the
`operator<` of `ReactionNotificationId` is the lexicographic order on
(itemId, sessionId) with itemId compared first; it is irreflexive and
transitive, any two ids are comparable or equal, and neither of two ids is less
than the other exactly when their itemId and their sessionId are both equal. -/
theorem reactionNotificationId_lt_lexicographic (F : Type) [LinearOrder F] :
    (∀ a b : ReactionNotificationId F,
        a.lt b = true ↔
          a.itemId < b.itemId ∨ (a.itemId = b.itemId ∧ a.sessionId < b.sessionId))
      ∧ (∀ a : ReactionNotificationId F, a.lt a = false)
      ∧ (∀ a b c : ReactionNotificationId F,
          a.lt b = true → b.lt c = true → a.lt c = true)
      ∧ (∀ a b : ReactionNotificationId F,
          a.lt b = true ∨ b.lt a = true ∨ a = b)
      ∧ (∀ a b : ReactionNotificationId F,
          (a.lt b = false ∧ b.lt a = false) ↔
            (a.itemId = b.itemId ∧ a.sessionId = b.sessionId)) := by
  have st := ReactionNotificationId.reactionId_strictTotal (F := F)
  refine ⟨ReactionNotificationId.reactionId_lt_iff, st.irrefl, st.trans, ?_, ?_⟩
  · intro a b
    cases hab : a.lt b
    · cases hba : b.lt a
      · exact Or.inr (Or.inr (st.total a b hab hba))
      · exact Or.inr (Or.inl rfl)
    · exact Or.inl rfl
  · intro a b
    constructor
    · rintro ⟨hab, hba⟩
      have h := st.total a b hab hba
      rw [h]
      exact ⟨rfl, rfl⟩
    · rintro ⟨hi, hs⟩
      have h : a = b := by
        obtain ⟨ai, as⟩ := a
        obtain ⟨bi, bs⟩ := b
        simp only at hi hs
        rw [hi, hs]
      rw [h]
      exact ⟨st.irrefl b, st.irrefl b⟩

/-- The ledger order evaluated on ids over natural-number item identities. -/
theorem reactionNotificationId_lt_lexicographic_witness :
    (ReactionNotificationId.lt (ReactionNotificationId.mk 1 9) (ReactionNotificationId.mk 2 0) = true)
      ∧ (ReactionNotificationId.lt (ReactionNotificationId.mk 2 0) (ReactionNotificationId.mk 2 1) = true)
      ∧ (ReactionNotificationId.lt (ReactionNotificationId.mk 2 1) (ReactionNotificationId.mk 2 0) = false) := by
  have h := (reactionNotificationId_lt_lexicographic Nat).1
  refine ⟨(h _ _).2 (Or.inl (by decide)), (h _ _).2 (Or.inr ⟨rfl, by decide⟩), ?_⟩
  rw [← Bool.not_eq_true, h]
  decide

/-! ## Flat map lemmas -/

namespace FlatMap

variable {K V : Type}

theorem keys_cons (e : K × V) (m : List (K × V)) : keys (e :: m) = e.1 :: keys m := rfl

theorem mem_keys_of_mem {m : List (K × V)} {e : K × V} (h : e ∈ m) : e.1 ∈ keys m :=
  List.mem_map_of_mem Prod.fst h

theorem sorted_nil (lt : K → K → Bool) : Sorted lt ([] : List (K × V)) :=
  List.Pairwise.nil

theorem sorted_cons {lt : K → K → Bool} {e : K × V} {m : List (K × V)} :
    Sorted lt (e :: m) ↔ (∀ k ∈ keys m, lt e.1 k = true) ∧ Sorted lt m := by
  unfold Sorted
  rw [keys_cons, List.pairwise_cons]

theorem mem_emplace {lt : K → K → Bool} {m : List (K × V)} {k : K} {v : V} {e : K × V}
    (h : e ∈ emplace lt m k v) : e = (k, v) ∨ e ∈ m := by
  induction m with
  | nil =>
    simp only [emplace, List.mem_singleton] at h
    exact Or.inl h
  | cons hd tl ih =>
    obtain ⟨k1, v1⟩ := hd
    simp only [emplace] at h
    split_ifs at h with h1 h2
    · rcases List.mem_cons.mp h with h3 | h3
      · exact Or.inr (h3 ▸ List.mem_cons_self _ _)
      · rcases ih h3 with h4 | h4
        · exact Or.inl h4
        · exact Or.inr (List.mem_cons_of_mem _ h4)
    · rcases List.mem_cons.mp h with h3 | h3
      · exact Or.inl h3
      · exact Or.inr h3
    · exact Or.inr h

theorem mem_keys_emplace {lt : K → K → Bool} {m : List (K × V)} {k : K} {v : V} {x : K}
    (h : x ∈ keys (emplace lt m k v)) : x = k ∨ x ∈ keys m := by
  obtain ⟨e, he, rfl⟩ := List.mem_map.mp h
  rcases mem_emplace he with h1 | h1
  · exact Or.inl (by rw [h1])
  · exact Or.inr (mem_keys_of_mem h1)

theorem keys_assign (lt : K → K → Bool) (m : List (K × V)) (k : K) (v w : V) :
    keys (assign lt m k v) = keys (emplace lt m k w) := by
  induction m with
  | nil => rfl
  | cons hd tl ih =>
    obtain ⟨k1, v1⟩ := hd
    simp only [assign, emplace]
    split_ifs with h1 h2
    · rw [keys_cons, keys_cons, ih]
    · rfl
    · rfl

theorem sorted_emplace {lt : K → K → Bool} (st : StrictTotal lt) {m : List (K × V)}
    (hm : Sorted lt m) (k : K) (v : V) : Sorted lt (emplace lt m k v) := by
  induction m with
  | nil =>
    simp only [emplace]
    exact sorted_cons.mpr ⟨fun _ hx => absurd hx (List.not_mem_nil _), sorted_nil lt⟩
  | cons hd tl ih =>
    obtain ⟨k1, v1⟩ := hd
    obtain ⟨hhd, htl⟩ := sorted_cons.mp hm
    simp only [emplace]
    split_ifs with h1 h2
    · refine sorted_cons.mpr ⟨?_, ih htl⟩
      intro x hx
      rcases mem_keys_emplace hx with h3 | h3
      · rw [h3]; exact h1
      · exact hhd x h3
    · refine sorted_cons.mpr ⟨?_, hm⟩
      intro x hx
      rw [keys_cons] at hx
      rcases List.mem_cons.mp hx with h3 | h3
      · rw [h3]; exact h2
      · exact st.trans k k1 x h2 (hhd x h3)
    · exact hm

theorem sorted_assign {lt : K → K → Bool} (st : StrictTotal lt) {m : List (K × V)}
    (hm : Sorted lt m) (k : K) (v : V) : Sorted lt (assign lt m k v) := by
  unfold Sorted
  rw [keys_assign lt m k v v]
  exact sorted_emplace st hm k v

theorem keys_removeIf_sublist (p : K → Bool) (m : List (K × V)) :
    List.Sublist (keys (removeIf p m)) (keys m) :=
  List.Sublist.map Prod.fst (List.filter_sublist m)

theorem sorted_removeIf {lt : K → K → Bool} {m : List (K × V)} (hm : Sorted lt m)
    (p : K → Bool) : Sorted lt (removeIf p m) :=
  List.Pairwise.sublist (keys_removeIf_sublist p m) hm

theorem nodup_keys_of_sorted {lt : K → K → Bool} (st : StrictTotal lt) {m : List (K × V)}
    (hm : Sorted lt m) : (keys m).Nodup := by
  refine List.Pairwise.imp ?_ hm
  intro a b hab heq
  rw [heq, st.irrefl b] at hab
  exact Bool.noConfusion hab

theorem not_mem_keys_of_find_eq_none {lt : K → K → Bool} (st : StrictTotal lt)
    {m : List (K × V)} (hm : Sorted lt m) {k : K} (h : find lt m k = none) :
    k ∉ keys m := by
  induction m with
  | nil => exact List.not_mem_nil _
  | cons hd tl ih =>
    obtain ⟨k1, v1⟩ := hd
    obtain ⟨hhd, htl⟩ := sorted_cons.mp hm
    simp only [find] at h
    rw [keys_cons]
    intro hk
    split_ifs at h with h1 h2
    · rcases List.mem_cons.mp hk with h3 | h3
      · rw [h3, st.irrefl] at h1
        exact Bool.noConfusion h1
      · exact ih htl h h3
    · rcases List.mem_cons.mp hk with h3 | h3
      · rw [h3, st.irrefl] at h2
        exact Bool.noConfusion h2
      · have h4 := st.trans k k1 k h2 (hhd k h3)
        rw [st.irrefl] at h4
        exact Bool.noConfusion h4

theorem emplace_of_find_isSome {lt : K → K → Bool} {m : List (K × V)} {k : K}
    (h : (find lt m k).isSome = true) (v : V) : emplace lt m k v = m := by
  induction m with
  | nil => simp [find] at h
  | cons hd tl ih =>
    obtain ⟨k1, v1⟩ := hd
    simp only [find] at h
    simp only [emplace]
    split_ifs at h ⊢ with h1 h2
    · rw [ih h]
    · simp at h
    · rfl

theorem sorted_applyEdit {lt : K → K → Bool} (st : StrictTotal lt) {m : List (K × V)}
    (hm : Sorted lt m) (edit : Edit K V) : Sorted lt (applyEdit lt m edit) := by
  cases edit with
  | emplace k v => exact sorted_emplace st hm k v
  | assign k v => exact sorted_assign st hm k v
  | removeIf p => exact sorted_removeIf hm p

theorem sorted_foldl_applyEdit {lt : K → K → Bool} (st : StrictTotal lt)
    (edits : List (Edit K V)) {m : List (K × V)} (hm : Sorted lt m) :
    Sorted lt (edits.foldl (applyEdit lt) m) := by
  induction edits generalizing m with
  | nil => exact hm
  | cons edit rest ih => exact ih (sorted_applyEdit st hm edit)

theorem sorted_build {lt : K → K → Bool} (st : StrictTotal lt) (edits : List (Edit K V)) :
    Sorted lt (build lt edits) :=
  sorted_foldl_applyEdit st edits (sorted_nil lt)

theorem find_isSome_of_mem_keys {lt : K → K → Bool} (st : StrictTotal lt)
    {m : List (K × V)} (hm : Sorted lt m) {k : K} (hk : k ∈ keys m) :
    (find lt m k).isSome = true := by
  cases hfind : find lt m k with
  | none => exact absurd hk (not_mem_keys_of_find_eq_none st hm hfind)
  | some x => rfl

end FlatMap

/-! ## The sent-reactions ledger between two flushes -/

namespace System

theorem ledger_clearForThreadIf {F : Type} (s : System F) (predicate : ThreadPtr → Bool) :
    (clearForThreadIf s predicate).sentReactionNotifications
      = s.sentReactionNotifications := rfl

end System

/-! ## Scheduler invariants -/

/-- C2: a WhenMap never holds two entries for the same (message id, kind).  The
comparison of `NotificationInHistoryKey` is lexicographic on (messageId, type):
two keys compare equal exactly when message id and kind are both equal, less
exactly when the message id is less or equal with a lesser kind, and the two
keys are the same key exactly when neither is less than the other.  Inserting a
key that the map already finds leaves the map as it is; a map obtained from the
empty map by any sequence of insertions, assignments and removals has pairwise
distinct keys, and inserting a key it holds leaves it unchanged, with the same
number of entries. -/
theorem whenMap_one_entry_per_key :
    (∀ a b : NotificationInHistoryKey,
        a.compare b = Ordering.eq ↔ a.messageId = b.messageId ∧ a.type = b.type)
      ∧ (∀ a b : NotificationInHistoryKey,
          a.compare b = Ordering.lt ↔
            a.messageId.bare < b.messageId.bare
              ∨ (a.messageId.bare = b.messageId.bare
                  ∧ a.type.underlying < b.type.underlying))
      ∧ (∀ a b : NotificationInHistoryKey,
          a.compare b = Ordering.gt ↔
            b.messageId.bare < a.messageId.bare
              ∨ (a.messageId.bare = b.messageId.bare
                  ∧ b.type.underlying < a.type.underlying))
      ∧ (∀ a b : NotificationInHistoryKey,
          (a.lt b = false ∧ b.lt a = false) ↔ a = b)
      ∧ (∀ (m : List (NotificationInHistoryKey × Int)) (k : NotificationInHistoryKey)
          (v : Int),
          (FlatMap.find NotificationInHistoryKey.lt m k).isSome = true →
            FlatMap.emplace NotificationInHistoryKey.lt m k v = m)
      ∧ (∀ edits : List (FlatMap.Edit NotificationInHistoryKey Int),
          (FlatMap.keys (FlatMap.build NotificationInHistoryKey.lt edits)).Nodup)
      ∧ (∀ (edits : List (FlatMap.Edit NotificationInHistoryKey Int))
          (k : NotificationInHistoryKey) (v : Int),
          k ∈ FlatMap.keys (FlatMap.build NotificationInHistoryKey.lt edits) →
            FlatMap.emplace NotificationInHistoryKey.lt
                (FlatMap.build NotificationInHistoryKey.lt edits) k v
              = FlatMap.build NotificationInHistoryKey.lt edits
            ∧ (FlatMap.emplace NotificationInHistoryKey.lt
                (FlatMap.build NotificationInHistoryKey.lt edits) k v).length
              = (FlatMap.build NotificationInHistoryKey.lt edits).length) := by
  have st := NotificationInHistoryKey.historyKey_strictTotal
  refine ⟨NotificationInHistoryKey.compare_eq_eq_iff,
    NotificationInHistoryKey.compare_eq_lt_iff,
    NotificationInHistoryKey.compare_eq_gt_iff, ?_, ?_, ?_, ?_⟩
  · intro a b
    constructor
    · rintro ⟨hab, hba⟩
      exact st.total a b hab hba
    · intro h
      rw [h]
      exact ⟨st.irrefl b, st.irrefl b⟩
  · intro m k v h
    exact FlatMap.emplace_of_find_isSome h v
  · intro edits
    exact FlatMap.nodup_keys_of_sorted st (FlatMap.sorted_build st edits)
  · intro edits k v hk
    have h := FlatMap.emplace_of_find_isSome
      (FlatMap.find_isSome_of_mem_keys st (FlatMap.sorted_build st edits) hk) v
    exact ⟨h, by rw [h]⟩

end Window.Notifications
